import Mathlib

/-!
Verification of the `porcelain` git-status parsers (packages `statusv1` and
`statusv2`): a shallow embedding of the record tokenizers (`bufio.SplitFunc`
instances), the field decoders, and the decode drivers, with theorems settling
the specified properties. Byte strings are modelled as `List Nat` (one byte
per element), Go `(value, error)` returns as `Except String`/`Option`.
-/

namespace Porcelain

/-- Bytes of an ASCII string literal, as natural numbers (Go []byte of a
string constant). -/
def bs (s : String) : List Nat := s.data.map Char.toNat

instance {ε α : Type} [DecidableEq ε] [DecidableEq α] : DecidableEq (Except ε α) := by
  intro a b
  cases a <;> cases b
  case error.error x y =>
    exact if h : x = y then .isTrue (by rw [h]) else .isFalse (by intro hc; injection hc; contradiction)
  case error.ok x y => exact .isFalse (by intro hc; injection hc)
  case ok.error x y => exact .isFalse (by intro hc; injection hc)
  case ok.ok x y =>
    exact if h : x = y then .isTrue (by rw [h]) else .isFalse (by intro hc; injection hc; contradiction)

/-- Model of Go `bytes.IndexByte`: index of the first occurrence of `b` in
`l`, or `none` (Go returns -1). -/
def indexByte : List Nat → Nat → Option Nat
  | [], _ => none
  | c :: l, b => if c = b then some 0 else (indexByte l b).map (· + 1)

/-- Model of Go `bytes.Cut` with a single-byte separator: splits around the
first occurrence of `b`; `none` models `found == false`. -/
def cut : List Nat → Nat → Option (List Nat × List Nat)
  | [], _ => none
  | c :: l, b => if c = b then some ([], l) else (cut l b).map (fun p => (c :: p.1, p.2))

/-- Model of Go `bytes.Cut` with a multi-byte separator (used for " -> " in
the v1 textual format). -/
def cutSeq (sep : List Nat) : List Nat → Option (List Nat × List Nat)
  | [] => if sep = [] then some ([], []) else none
  | c :: l =>
    if sep <+: c :: l then some ([], (c :: l).drop sep.length)
    else (cutSeq sep l).map (fun p => (c :: p.1, p.2))

/-- Model of Go `bytes.CutPrefix`: `some` of the remainder when `pre` is a
prefix of `l` (Go's ok flag), else `none`. -/
def cutPrefix (l pre : List Nat) : Option (List Nat) :=
  if pre <+: l then some (l.drop pre.length) else none

/-- Model of Go `bytes.SplitN` with a single-byte separator and `n > 0`:
at most `n` subslices, the last one being the unsplit remainder. -/
def splitN (l : List Nat) (sep : Nat) (n : Nat) : List (List Nat) :=
  match n with
  | 0 => []
  | 1 => [l]
  | m + 2 =>
    match cut l sep with
    | none => [l]
    | some p => p.1 :: splitN p.2 sep (m + 1)

theorem indexByte_eq_none_iff (l : List Nat) (b : Nat) : indexByte l b = none ↔ b ∉ l := by
  induction l with
  | nil => simp [indexByte]
  | cons c l ih =>
    by_cases h : c = b
    · simp [indexByte, h]
    · simp [indexByte, h, ih, Ne.symm h]

theorem indexByte_eq_some_iff (l : List Nat) (b : Nat) (i : Nat) :
    indexByte l b = some i ↔ ∃ p q, l = p ++ b :: q ∧ p.length = i ∧ b ∉ p := by
  induction l generalizing i with
  | nil => simp [indexByte]
  | cons c l ih =>
    by_cases h : c = b
    · subst h
      simp only [indexByte, if_pos rfl]
      constructor
      · rintro h0
        injection h0 with h0
        exact ⟨[], l, rfl, h0, by simp⟩
      · rintro ⟨p, q, hl, hlen, hb⟩
        match p, hl with
        | [], hl => simp_all
        | x :: p, hl =>
          injection hl with h1 h2
          exact absurd (h1 ▸ List.mem_cons_self x p) hb
    · simp only [indexByte, if_neg h, Option.map_eq_some']
      constructor
      · rintro ⟨j, hj, rfl⟩
        obtain ⟨p, q, rfl, rfl, hb⟩ := (ih j).mp hj
        exact ⟨c :: p, q, rfl, by simp, by simp [hb, Ne.symm h]⟩
      · rintro ⟨p, q, hl, hlen, hb⟩
        match p, hl with
        | [], hl => injection hl with h1 h2; exact absurd h1 h
        | x :: p, hl =>
          injection hl with h1 h2
          subst h1
          refine ⟨p.length, (ih p.length).mpr ⟨p, q, h2, rfl, fun hm => hb (List.mem_cons_of_mem _ hm)⟩, ?_⟩
          simp at hlen
          omega

theorem indexByte_append (p q : List Nat) (b : Nat) (hb : b ∉ p) :
    indexByte (p ++ b :: q) b = some p.length :=
  (indexByte_eq_some_iff _ _ _).mpr ⟨p, q, rfl, rfl, hb⟩

theorem cut_eq_none_iff (l : List Nat) (b : Nat) : cut l b = none ↔ b ∉ l := by
  induction l with
  | nil => simp [cut]
  | cons c l ih =>
    by_cases h : c = b
    · simp [cut, h]
    · simp [cut, h, ih, Ne.symm h]

theorem cut_eq_some_iff (l : List Nat) (b : Nat) (x y : List Nat) :
    cut l b = some (x, y) ↔ l = x ++ b :: y ∧ b ∉ x := by
  induction l generalizing x with
  | nil => simp [cut]
  | cons c l ih =>
    by_cases h : c = b
    · subst h
      simp only [cut, if_pos rfl]
      constructor
      · rintro h0
        injection h0 with h0
        rw [Prod.mk.injEq] at h0
        obtain ⟨rfl, rfl⟩ := h0
        exact ⟨rfl, by simp⟩
      · rintro ⟨hl, hb⟩
        match x, hl with
        | [], hl => simp_all
        | z :: x, hl =>
          injection hl with h1 h2
          exact absurd (h1 ▸ List.mem_cons_self z x) hb
    · simp only [cut, if_neg h, Option.map_eq_some']
      constructor
      · rintro ⟨⟨x1, y1⟩, hxy, hc⟩
        rw [Prod.mk.injEq] at hc
        obtain ⟨hc1, rfl⟩ := hc
        obtain ⟨rfl, hb⟩ := (ih x1).mp hxy
        subst hc1
        exact ⟨rfl, by simp [hb, Ne.symm h]⟩
      · rintro ⟨hl, hb⟩
        match x, hl with
        | [], hl => injection hl with h1 h2; exact absurd h1 h
        | z :: x, hl =>
          injection hl with h1 h2
          subst h1
          exact ⟨(x, y), (ih x).mpr ⟨h2, fun hm => hb (List.mem_cons_of_mem _ hm)⟩, rfl⟩

theorem cut_append (x y : List Nat) (b : Nat) (hb : b ∉ x) :
    cut (x ++ b :: y) b = some (x, y) :=
  (cut_eq_some_iff _ _ _ _).mpr ⟨rfl, hb⟩

theorem cut_eq_none (l : List Nat) (b : Nat) (hb : b ∉ l) : cut l b = none :=
  (cut_eq_none_iff _ _).mpr hb

theorem cutPrefix_append (pre rest : List Nat) : cutPrefix (pre ++ rest) pre = some rest := by
  simp [cutPrefix, List.prefix_append]

theorem splitN_append (a rest : List Nat) (sep m : Nat) (h : sep ∉ a) :
    splitN (a ++ sep :: rest) sep (m + 2) = a :: splitN rest sep (m + 1) := by
  simp [splitN, cut_append a rest sep h]

/-- Result of one invocation of a `bufio.SplitFunc`:
`needMore` is Go's `(0, nil, nil)`, `emit advance token` is `(advance, token, nil)`,
`fail` is a non-nil error. -/
inductive SplitResult where
  | needMore : SplitResult
  | emit (advance : Nat) (token : List Nat) : SplitResult
  | fail (msg : String) : SplitResult
deriving Repr, DecidableEq

/-- Model of Go `strconv.ParseUint(string(field), 8, 32)`: the digit loop with
octal digits and the 32-bit overflow check; `none` models a non-nil error. -/
def parseUintOct32 : List Nat → Nat → Option Nat
  | [], n => some n
  | c :: rest, n =>
    if 48 ≤ c ∧ c ≤ 55 then
      if n * 8 + (c - 48) < 4294967296 then parseUintOct32 rest (n * 8 + (c - 48))
      else none
    else none

/-- Model of Go `strconv.ParseInt(string(value), 10, 0)`: optional sign,
decimal digits, 64-bit `int` range; `none` models a non-nil error. -/
def parseInt10 (s : List Nat) : Option Int :=
  match s with
  | [] => none
  | c :: rest =>
    let signDigits : Bool × List Nat :=
      if c = 43 then (false, rest) else if c = 45 then (true, rest) else (false, s)
    match signDigits with
    | (neg, digits) =>
      if digits = [] then none
      else if digits.all (fun d => 48 ≤ d ∧ d ≤ 57) then
        let v : Nat := digits.foldl (fun n d => n * 10 + (d - 48)) 0
        let i : Int := if neg then -(v : Int) else (v : Int)
        if -9223372036854775808 ≤ i ∧ i ≤ 9223372036854775807 then some i else none
      else none

/-- Space test used by Go's `fmt` scanner on ASCII input. -/
def isGoSpace (c : Nat) : Bool := c = 32 ∨ c = 9 ∨ c = 10 ∨ c = 13

/-- Model of one `%d` operand of Go's `fmt` scanner: discard leading spaces,
optional sign, then a maximal nonempty run of decimal digits. -/
def scanDecInt (s : List Nat) : Option (Int × List Nat) :=
  let t := s.dropWhile isGoSpace
  match t with
  | 45 :: rest =>
    let ds := rest.takeWhile (fun c => 48 ≤ c ∧ c ≤ 57)
    if ds = [] then none
    else some (-(ds.foldl (fun n d => n * 10 + (d - 48)) 0 : Nat), rest.drop ds.length)
  | 43 :: rest =>
    let ds := rest.takeWhile (fun c => 48 ≤ c ∧ c ≤ 57)
    if ds = [] then none
    else some ((ds.foldl (fun n d => n * 10 + (d - 48)) 0 : Nat), rest.drop ds.length)
  | _ =>
    let ds := t.takeWhile (fun c => 48 ≤ c ∧ c ≤ 57)
    if ds = [] then none
    else some ((ds.foldl (fun n d => n * 10 + (d - 48)) 0 : Nat), t.drop ds.length)

/-- Model of the `fmt.Sscanf(string(value), "+%d -%d", ...)` call in the
`branch.ab` header case: a literal plus sign, a `%d`, a format space
(matching any run of input spaces), a literal minus sign, a `%d`.
Returns which of the two operands were successfully scanned; an operand the
scan never reached leaves its destination untouched (`none`). -/
def sscanfBranchAB (s : List Nat) : Option Int × Option Int :=
  match s with
  | 43 :: rest =>
    match scanDecInt rest with
    | none => (none, none)
    | some (a, r1) =>
      match r1.dropWhile isGoSpace with
      | 45 :: r3 =>
        match scanDecInt r3 with
        | none => (some a, none)
        | some (b, _) => (some a, some b)
      | _ => (some a, none)
  | _ => (none, none)

namespace statusv2

/-- `porcelainv2ZSplitFunc` from statusv2/scanner.go: the NUL tokenizer for
`git status --porcelain=v2 -z`, disambiguating the internal path separator of
rename/copy ("2 ") records from the record terminator. -/
def porcelainv2ZSplitFunc (data : List Nat) (atEOF : Bool) : SplitResult :=
  match indexByte data 0 with
  | none =>
    if atEOF ∧ data ≠ [] then .emit data.length data
    else .needMore
  | some firstNUL =>
    if [50, 32] <+: data then
      match indexByte (data.drop (firstNUL + 1)) 0 with
      | none =>
        if atEOF then
          if firstNUL + 1 < data.length then .emit data.length data
          else .fail "malformed rename/copy entry: missing second path"
        else .needMore
      | some secondNUL =>
        .emit ((data.take (firstNUL + 1 + secondNUL)).length + 1) (data.take (firstNUL + 1 + secondNUL))
    else .emit (firstNUL + 1) (data.take firstNUL)

/-- `BranchInfo` from statusv2: data of the `# branch.*` headers. -/
structure BranchInfo where
  oid : List Nat := []
  head : List Nat := []
  upstream : List Nat := []
  ahead : Int := 0
  behind : Int := 0
deriving Repr, DecidableEq

/-- `StashInfo` from statusv2: data of the `# stash <N>` header. -/
structure StashInfo where
  count : Int
deriving Repr, DecidableEq

/-- `XYFlag` from statusv2: the two XY status bytes (index, worktree). -/
structure XYFlag where
  x : Nat
  y : Nat
deriving Repr, DecidableEq

/-- `SubmoduleStatus` from statusv2: the four flags of the 4-character field. -/
structure SubmoduleStatus where
  isSubmodule : Bool
  commitChanged : Bool
  hasModifications : Bool
  hasUntracked : Bool
deriving Repr, DecidableEq

/-- `ChangedEntry` from statusv2 ("1" records). File modes are the decoded
octal values (Go `FileMode`, a uint32). -/
structure ChangedEntry where
  xy : XYFlag
  sub : SubmoduleStatus
  modeH : Nat
  modeI : Nat
  modeW : Nat
  hashH : List Nat
  hashI : List Nat
  path : List Nat
deriving Repr, DecidableEq

/-- `RenameOrCopyEntry` from statusv2 ("2" records). -/
structure RenameOrCopyEntry where
  xy : XYFlag
  sub : SubmoduleStatus
  modeH : Nat
  modeI : Nat
  modeW : Nat
  hashH : List Nat
  hashI : List Nat
  score : List Nat
  path : List Nat
  orig : List Nat
deriving Repr, DecidableEq

/-- `UnmergedEntry` from statusv2 ("u" records). -/
structure UnmergedEntry where
  xy : XYFlag
  sub : SubmoduleStatus
  mode1 : Nat
  mode2 : Nat
  mode3 : Nat
  modeW : Nat
  hash1 : List Nat
  hash2 : List Nat
  hash3 : List Nat
  path : List Nat
deriving Repr, DecidableEq

/-- `UntrackedEntry` from statusv2 ("?" records). -/
structure UntrackedEntry where
  path : List Nat
deriving Repr, DecidableEq

/-- `IgnoredEntry` from statusv2 ("!" records). -/
structure IgnoredEntry where
  path : List Nat
deriving Repr, DecidableEq

/-- The closed `Entry` union of statusv2. -/
inductive Entry where
  | changed (e : ChangedEntry)
  | renameOrCopy (e : RenameOrCopyEntry)
  | unmerged (e : UnmergedEntry)
  | untracked (e : UntrackedEntry)
  | ignored (e : IgnoredEntry)
deriving Repr, DecidableEq

/-- `Status` from statusv2: the decode result. -/
structure Status where
  branch : Option BranchInfo := none
  stash : Option StashInfo := none
  entries : List Entry := []
deriving Repr, DecidableEq

/-- `ensureBranch` from statusv2/parse.go: the existing `BranchInfo`, or a
fresh zero value when none was allocated yet. -/
def ensureBranch (s : Status) : BranchInfo := s.branch.getD {}

/-- `parseXYFlag` from statusv2/parse.go: exactly two bytes, unvalidated. -/
def parseXYFlag (field : List Nat) : Except String XYFlag :=
  match field with
  | [a, b] => .ok ⟨a, b⟩
  | _ => .error "invalid XY field: expected 2 characters"

/-- `parseSubmoduleStatus` from statusv2/parse.go: exactly four bytes; flag
letters checked positionally, unknown letters read as false. -/
def parseSubmoduleStatus (field : List Nat) : Except String SubmoduleStatus :=
  match field with
  | [c0, c1, c2, c3] => .ok ⟨c0 == 83, c1 == 67, c2 == 77, c3 == 85⟩
  | _ => .error "invalid submodule status field"

/-- `parseFileMode` from statusv2/parse.go: `strconv.ParseUint(field, 8, 32)`. -/
def parseFileMode (field : List Nat) : Except String Nat :=
  match field with
  | [] => .error "invalid file mode"
  | _ =>
    match parseUintOct32 field 0 with
    | some m => .ok m
    | none => .error "invalid file mode"

/-- `parseHeaderEntry` from statusv2/parse.go: `# <key> <value>` header lines;
recognized keys update branch/stash state, anything malformed or unknown is
dropped without error. In the Go source the `branch.ab` case passes
`&ensureBranch(s).Ahead` and `&ensureBranch(s).Behind` to `fmt.Sscanf`, so the
branch is allocated before the value is scanned. -/
def parseHeaderEntry (line : List Nat) (s : Status) : Status :=
  match cutPrefix line (bs "# ") with
  | none => s
  | some rest =>
    match cut rest 32 with
    | none => s
    | some (headerKey, value) =>
      if headerKey = bs "branch.oid" then
        { s with branch := some { ensureBranch s with oid := value } }
      else if headerKey = bs "branch.head" then
        { s with branch := some { ensureBranch s with head := value } }
      else if headerKey = bs "branch.upstream" then
        { s with branch := some { ensureBranch s with upstream := value } }
      else if headerKey = bs "branch.ab" then
        let b := ensureBranch s
        let scanned := sscanfBranchAB value
        { s with branch := some { b with ahead := scanned.1.getD b.ahead,
                                         behind := scanned.2.getD b.behind } }
      else if headerKey = bs "stash" then
        match parseInt10 value with
        | none => s
        | some n => { s with stash := some ⟨n⟩ }
      else s

/-- `parseChangedEntry` from statusv2/parse.go:
`1 <XY> <sub> <mH> <mI> <mW> <hH> <hI> <path>`. -/
def parseChangedEntry (line : List Nat) : Except String ChangedEntry :=
  match splitN line 32 9 with
  | [f0, f1, f2, f3, f4, f5, f6, f7, f8] =>
    if [49] <+: f0 then
      match parseXYFlag f1 with
      | .error e => .error e
      | .ok xy =>
        match parseSubmoduleStatus f2 with
        | .error e => .error e
        | .ok sub =>
          match parseFileMode f3, parseFileMode f4, parseFileMode f5 with
          | .ok modeH, .ok modeI, .ok modeW =>
            .ok { xy := xy, sub := sub, modeH := modeH, modeI := modeI, modeW := modeW,
                  hashH := f6, hashI := f7, path := f8 }
          | _, _, _ => .error "invalid file mode fields"
    else .error "invalid changed entry line"
  | _ => .error "invalid changed entry line"

/-- `parseRenameOrCopyEntry` from statusv2/parse.go:
`2 <XY> <sub> <mH> <mI> <mW> <hH> <hI> <score> <path><sep><origPath>`, where
`pathSep` is tab in textual mode and NUL in -z mode. -/
def parseRenameOrCopyEntry (line : List Nat) (pathSep : Nat) : Except String RenameOrCopyEntry :=
  match splitN line 32 10 with
  | [f0, f1, f2, f3, f4, f5, f6, f7, f8, f9] =>
    if [50] <+: f0 then
      match parseXYFlag f1 with
      | .error e => .error e
      | .ok xy =>
        match parseSubmoduleStatus f2 with
        | .error e => .error e
        | .ok sub =>
          match parseFileMode f3, parseFileMode f4, parseFileMode f5 with
          | .ok modeH, .ok modeI, .ok modeW =>
            match cut f9 pathSep with
            | none => .error "invalid rename/copy path entry format"
            | some (path, orig) =>
              .ok { xy := xy, sub := sub, modeH := modeH, modeI := modeI, modeW := modeW,
                    hashH := f6, hashI := f7, score := f8, path := path, orig := orig }
          | _, _, _ => .error "invalid file mode fields"
    else .error "invalid rename or copy entry line"
  | _ => .error "invalid rename or copy entry line"

/-- `parseUnmergedEntry` from statusv2/parse.go:
`u <XY> <sub> <m1> <m2> <m3> <mW> <h1> <h2> <h3> <path>`. -/
def parseUnmergedEntry (line : List Nat) : Except String UnmergedEntry :=
  match splitN line 32 11 with
  | [f0, f1, f2, f3, f4, f5, f6, f7, f8, f9, f10] =>
    if [117] <+: f0 then
      match parseXYFlag f1 with
      | .error e => .error e
      | .ok xy =>
        match parseSubmoduleStatus f2 with
        | .error e => .error e
        | .ok sub =>
          match parseFileMode f3, parseFileMode f4, parseFileMode f5, parseFileMode f6 with
          | .ok mode1, .ok mode2, .ok mode3, .ok modeW =>
            .ok { xy := xy, sub := sub, mode1 := mode1, mode2 := mode2, mode3 := mode3,
                  modeW := modeW, hash1 := f7, hash2 := f8, hash3 := f9, path := f10 }
          | _, _, _, _ => .error "invalid file mode fields"
    else .error "invalid unmerged entry line"
  | _ => .error "invalid unmerged entry line"

/-- `parseUntrackedEntry` from statusv2/parse.go: `? <path>`. -/
def parseUntrackedEntry (line : List Nat) : Except String UntrackedEntry :=
  match cutPrefix line [63, 32] with
  | none => .error "invalid untracked entry line"
  | some path => .ok ⟨path⟩

/-- `parseIgnoredEntry` from statusv2/parse.go: `! <path>`. -/
def parseIgnoredEntry (line : List Nat) : Except String IgnoredEntry :=
  match cutPrefix line [33, 32] with
  | none => .error "invalid ignored entry line"
  | some path => .ok ⟨path⟩

/-- The entry-producing arm of the `parse` dispatcher: `some` of the field
decoder's result for the five entry discriminants, `none` for headers and
unknown discriminants. -/
def lineEntry (pathSep : Nat) (line : List Nat) : Option (Except String Entry) :=
  match line with
  | [] => none
  | c :: _ =>
    if c = 49 then some ((parseChangedEntry line).map .changed)
    else if c = 50 then some ((parseRenameOrCopyEntry line pathSep).map .renameOrCopy)
    else if c = 117 then some ((parseUnmergedEntry line).map .unmerged)
    else if c = 63 then some ((parseUntrackedEntry line).map .untracked)
    else if c = 33 then some ((parseIgnoredEntry line).map .ignored)
    else none

/-- One iteration of the `parse` loop body from statusv2/parse.go: skip empty
lines, route on the first byte; `#` updates header state, the five entry kinds
append an entry or abort, anything else is skipped. -/
def stepLine (pathSep : Nat) (s : Status) (line : List Nat) : Except String Status :=
  match line with
  | [] => .ok s
  | c :: _ =>
    if c = 35 then .ok (parseHeaderEntry line s)
    else
      match lineEntry pathSep line with
      | none => .ok s
      | some (.error e) => .error e
      | some (.ok e) => .ok { s with entries := s.entries ++ [e] }

end statusv2

/-- The `bufio.Scanner` read loop driving a `SplitFunc` over a fully buffered
input, fused with the per-token step of the parse loop. The fuel argument is
only a structural-recursion bound: each emitted token advances the cursor by
at least one byte, so `data.length + 1` fuel always suffices. `wrapErr` models
how the caller wraps a scanner error (`scanner.Err()`). -/
def scanFoldAux {σ : Type} (split : List Nat → Bool → SplitResult)
    (step : σ → List Nat → Except String σ) (wrapErr : String → String) :
    Nat → List Nat → σ → Except String σ
  | _, [], st => .ok st
  | 0, _ :: _, _ => .error "scanner: out of fuel"
  | fuel + 1, c :: data, st =>
    match split (c :: data) true with
    | .needMore => .ok st
    | .fail e => .error (wrapErr e)
    | .emit adv tok =>
      if 0 < adv ∧ adv ≤ (c :: data).length then
        match step st tok with
        | .error e => .error e
        | .ok st2 => scanFoldAux split step wrapErr fuel ((c :: data).drop adv) st2
      else .error "scanner: bad advance"

/-- Scanner driver at its sufficient fuel. -/
def scanFold {σ : Type} (split : List Nat → Bool → SplitResult)
    (step : σ → List Nat → Except String σ) (wrapErr : String → String)
    (data : List Nat) (st : σ) : Except String σ :=
  scanFoldAux split step wrapErr (data.length + 1) data st

namespace statusv2

/-- `ParseZ` from statusv2/parse.go: `parse(newZScanner(r), nulSeparator)`,
decoding `git status --porcelain=v2 -z` output. -/
def ParseZ (data : List Nat) : Except String Status :=
  scanFold porcelainv2ZSplitFunc (stepLine 0) id data {}

end statusv2

namespace statusv1

/-- `porcelainv1ZSplitFunc` from statusv1/scanner.go: the NUL tokenizer for
`git status --porcelain=v1 -z`; a record is rename/copy when either XY byte
is 'R' (82) or 'C' (67). -/
def porcelainv1ZSplitFunc (data : List Nat) (atEOF : Bool) : SplitResult :=
  match indexByte data 0 with
  | none =>
    if atEOF ∧ data ≠ [] then .emit data.length data
    else .needMore
  | some firstNUL =>
    if 2 ≤ data.length ∧
        (data.getD 0 0 = 82 ∨ data.getD 0 0 = 67 ∨ data.getD 1 0 = 82 ∨ data.getD 1 0 = 67) then
      match indexByte (data.drop (firstNUL + 1)) 0 with
      | none =>
        if atEOF then
          if firstNUL + 1 < data.length then .emit data.length data
          else .fail "malformed rename/copy entry: missing original path"
        else .needMore
      | some secondNUL =>
        .emit (firstNUL + 1 + secondNUL + 1) (data.take (firstNUL + 1 + secondNUL))
    else .emit (firstNUL + 1) (data.take firstNUL)

/-- `XYFlag` from statusv1/status.go: the two-character porcelain=v1 status
code (index state, worktree state). -/
structure XYFlag where
  x : Nat
  y : Nat
deriving Repr, DecidableEq

/-- `Entry` from statusv1/status.go: one file entry; `origPath` is empty for
entries that are not renames/copies. -/
structure Entry where
  xy : XYFlag
  path : List Nat
  origPath : List Nat
deriving Repr, DecidableEq

/-- `Status` from statusv1/status.go: opaque `##` header lines plus entries. -/
structure Status where
  headers : List (List Nat) := []
  entries : List Entry := []
deriving Repr, DecidableEq

/-- `parseXYFlag` from statusv1/parse.go: exactly two bytes, unvalidated. -/
def parseXYFlag (field : List Nat) : Except String XYFlag :=
  match field with
  | [a, b] => .ok ⟨a, b⟩
  | _ => .error "invalid XY field: expected 2 characters"

/-- `parseEntry` from statusv1/parse.go: one textual porcelain=v1 line,
`XY PATH` or `XY ORIG_PATH -> PATH`. -/
def parseEntry (line : List Nat) : Except String Entry :=
  if line.length < 3 then .error "line too short"
  else
    match parseXYFlag (line.take 2) with
    | .error e => .error e
    | .ok xy =>
      if line.getD 2 0 ≠ 32 then .error "expected space after XY status"
      else
        match cutSeq [32, 45, 62, 32] (line.drop 3) with
        | some (origPath, newPath) =>
          if origPath = [] ∨ newPath = [] then .error "invalid rename format"
          else .ok ⟨xy, newPath, origPath⟩
        | none => .ok ⟨xy, line.drop 3, []⟩

/-- `parseEntryZ` from statusv1/parse.go: one -z record, `XY PATH` or (for an
XY containing 'R'/'C') `XY PATH\x00ORIGPATH`; a rename/copy record without the
NUL separator falls through to the plain-path form. -/
def parseEntryZ (entry : List Nat) : Except String Entry :=
  if entry.length < 3 then .error "entry too short"
  else
    match parseXYFlag (entry.take 2) with
    | .error e => .error e
    | .ok xy =>
      if entry.getD 2 0 ≠ 32 then .error "expected space after XY status"
      else
        if xy.x = 82 ∨ xy.x = 67 ∨ xy.y = 82 ∨ xy.y = 67 then
          match cut (entry.drop 3) 0 with
          | some (newPath, origPath) => .ok ⟨xy, newPath, origPath⟩
          | none => .ok ⟨xy, entry.drop 3, []⟩
        else .ok ⟨xy, entry.drop 3, []⟩

/-- One iteration of the `ParseZ` loop body from statusv1/parse.go: skip empty
records, store `##` header lines verbatim, decode everything else as an entry
(a decode failure aborts, wrapped as in the Go source). -/
def stepEntryZ (s : Status) (entry : List Nat) : Except String Status :=
  match entry with
  | [] => .ok s
  | _ =>
    if [35, 35] <+: entry then .ok { s with headers := s.headers ++ [entry] }
    else
      match parseEntryZ entry with
      | .error e => .error ("failed to parse entry: " ++ e)
      | .ok pe => .ok { s with entries := s.entries ++ [pe] }

/-- `ParseZ` from statusv1/parse.go: drives `porcelainv1ZSplitFunc` over the
input; a scanner error is wrapped as `scanner error: ...`. -/
def ParseZ (data : List Nat) : Except String Status :=
  scanFold porcelainv1ZSplitFunc stepEntryZ (fun e => "scanner error: " ++ e) data {}

end statusv1

/-! Lemmas about the byte-list utilities and the scanner driver. -/

theorem count_eq_one_decomp (r : List Nat) (b : Nat) (h : r.count b = 1) :
    ∃ p q, r = p ++ b :: q ∧ b ∉ p ∧ b ∉ q := by
  have hb : b ∈ r := by
    rw [← List.count_pos_iff, h]
    omega
  have hnone : indexByte r b ≠ none := fun hn => ((indexByte_eq_none_iff r b).mp hn) hb
  obtain ⟨i, hi⟩ := Option.ne_none_iff_exists'.mp hnone
  obtain ⟨p, q, rfl, _, hp⟩ := (indexByte_eq_some_iff r b i).mp hi
  refine ⟨p, q, rfl, hp, ?_⟩
  have hcp : p.count b = 0 := List.count_eq_zero.mpr hp
  rw [List.count_append, hcp, List.count_cons_self] at h
  exact List.count_eq_zero.mp (by omega)

theorem scanFoldAux_nil {σ : Type} (split : List Nat → Bool → SplitResult)
    (step : σ → List Nat → Except String σ) (wrapErr : String → String)
    (fuel : Nat) (st : σ) : scanFoldAux split step wrapErr fuel [] st = .ok st := by
  cases fuel <;> rfl

theorem scanFoldAux_cons_eq {σ : Type} (split : List Nat → Bool → SplitResult)
    (step : σ → List Nat → Except String σ) (wrapErr : String → String)
    (fuel : Nat) (data : List Nat) (st : σ) (hd : data ≠ []) :
    scanFoldAux split step wrapErr (fuel + 1) data st =
      match split data true with
      | .needMore => .ok st
      | .fail e => .error (wrapErr e)
      | .emit adv tok =>
        if 0 < adv ∧ adv ≤ data.length then
          match step st tok with
          | .error e => .error e
          | .ok st2 => scanFoldAux split step wrapErr fuel (data.drop adv) st2
        else .error "scanner: bad advance" := by
  cases data with
  | nil => exact absurd rfl hd
  | cons c ds => rfl

theorem scanFoldAux_fuel_irrel {σ : Type} (split : List Nat → Bool → SplitResult)
    (step : σ → List Nat → Except String σ) (wrapErr : String → String) :
    ∀ f1 f2 (data : List Nat) (st : σ), data.length < f1 → data.length < f2 →
      scanFoldAux split step wrapErr f1 data st = scanFoldAux split step wrapErr f2 data st := by
  intro f1
  induction f1 with
  | zero => intro f2 data st h1 _; omega
  | succ m ih =>
    intro f2 data st h1 h2
    cases data with
    | nil => rw [scanFoldAux_nil, scanFoldAux_nil]
    | cons c ds =>
      cases f2 with
      | zero => simp at h2
      | succ k =>
        rw [scanFoldAux_cons_eq _ _ _ _ _ _ (by simp),
            scanFoldAux_cons_eq _ _ _ _ _ _ (by simp)]
        cases split (c :: ds) true with
        | needMore => rfl
        | fail e => rfl
        | emit adv tok =>
          simp only
          by_cases hadv : 0 < adv ∧ adv ≤ (c :: ds).length
          · rw [if_pos hadv, if_pos hadv]
            cases step st tok with
            | error e => rfl
            | ok st2 =>
              simp only
              have hlen : ((c :: ds).drop adv).length < m := by
                simp only [List.length_drop, List.length_cons] at *
                omega
              have hlen2 : ((c :: ds).drop adv).length < k := by
                simp only [List.length_drop, List.length_cons] at *
                omega
              exact ih _ _ _ hlen hlen2
          · rw [if_neg hadv, if_neg hadv]

namespace statusv2

/-- A record is well-formed for the v2 NUL tokenizer when it carries exactly
its internal separator NUL (rename/copy records) or no NUL at all (all other
records); the terminator is appended outside the record. -/
def wfZRecord (r : List Nat) : Prop :=
  if [50, 32] <+: r then r.count 0 = 1 else r.count 0 = 0

instance (r : List Nat) : Decidable (wfZRecord r) := by
  unfold wfZRecord
  infer_instance

theorem not_prefix2_append (r rest : List Nat) (hpre : ¬ [50, 32] <+: r) :
    ¬ [50, 32] <+: (r ++ 0 :: rest) := by
  match r with
  | [] => simp [List.cons_prefix_cons]
  | [a] =>
    intro hc
    rw [List.cons_append, List.nil_append, List.cons_prefix_cons, List.cons_prefix_cons] at hc
    omega
  | a :: b :: t =>
    intro hc
    rw [List.cons_append, List.cons_append, List.cons_prefix_cons, List.cons_prefix_cons] at hc
    exact hpre (by simp [List.cons_prefix_cons, hc.1, hc.2.1])

theorem porcelainv2ZSplitFunc_record (r rest : List Nat) (hwf : wfZRecord r) :
    porcelainv2ZSplitFunc (r ++ 0 :: rest) true = .emit (r.length + 1) r := by
  unfold wfZRecord at hwf
  by_cases hpre : [50, 32] <+: r
  · rw [if_pos hpre] at hwf
    obtain ⟨p, q, rfl, hp, hq⟩ := count_eq_one_decomp r 0 hwf
    have h1 : indexByte ((p ++ 0 :: q) ++ 0 :: rest) 0 = some p.length := by
      rw [List.append_assoc, List.cons_append]
      exact indexByte_append p _ 0 hp
    have hpre2 : [50, 32] <+: ((p ++ 0 :: q) ++ 0 :: rest) :=
      hpre.trans (List.prefix_append _ _)
    have hdrop : ((p ++ 0 :: q) ++ 0 :: rest).drop (p.length + 1) = q ++ 0 :: rest := by
      rw [List.append_assoc, List.cons_append, ← List.singleton_append, ← List.append_assoc]
      exact List.drop_left' (by simp)
    have h2 : indexByte (((p ++ 0 :: q) ++ 0 :: rest).drop (p.length + 1)) 0 = some q.length := by
      rw [hdrop]
      exact indexByte_append q rest 0 hq
    have htake : ((p ++ 0 :: q) ++ 0 :: rest).take (p.length + 1 + q.length) = p ++ 0 :: q :=
      List.take_left' (by simp; omega)
    simp only [porcelainv2ZSplitFunc, h1, if_pos hpre2, h2, htake]
  · rw [if_neg hpre] at hwf
    have hp : 0 ∉ r := List.count_eq_zero.mp hwf
    have h1 : indexByte (r ++ 0 :: rest) 0 = some r.length := indexByte_append r rest 0 hp
    have htake : (r ++ 0 :: rest).take r.length = r := List.take_left' rfl
    simp only [porcelainv2ZSplitFunc, h1, if_neg (not_prefix2_append r rest hpre), htake]

theorem scanFoldV2_record {σ : Type} (step : σ → List Nat → Except String σ)
    (r rest : List Nat) (st : σ) (hwf : wfZRecord r) :
    scanFold porcelainv2ZSplitFunc step id (r ++ 0 :: rest) st =
      match step st r with
      | .error e => .error e
      | .ok st2 => scanFold porcelainv2ZSplitFunc step id rest st2 := by
  unfold scanFold
  have hne : r ++ 0 :: rest ≠ [] := by cases r <;> simp
  have hlen : (r ++ 0 :: rest).length = r.length + 1 + rest.length := by simp; omega
  rw [scanFoldAux_cons_eq _ _ _ _ _ _ hne, porcelainv2ZSplitFunc_record r rest hwf]
  have hadv : 0 < r.length + 1 ∧ r.length + 1 ≤ (r ++ 0 :: rest).length := by
    constructor
    · omega
    · rw [hlen]; omega
  simp only
  rw [if_pos hadv]
  cases hstep : step st r with
  | error e => rfl
  | ok st2 =>
    simp only
    have hdrop : (r ++ 0 :: rest).drop (r.length + 1) = rest := by
      rw [← List.singleton_append, ← List.append_assoc]
      exact List.drop_left' (by simp)
    rw [hdrop]
    exact scanFoldAux_fuel_irrel _ _ _ _ _ _ _ (by rw [hlen]; omega) (by omega)

end statusv2

/-! Claim theorems. -/

/-- C1: on a buffer containing at least one NUL, the successor-format NUL
tokenizer emits, for a non-"2 " record, exactly the bytes preceding the first
NUL and advances past that NUL; for a "2 "-discriminated record with a second
NUL, it emits the span up to (excluding) the second NUL — containing exactly
one embedded NUL — and advances past the second NUL. No emitted record
includes its own terminator. -/
theorem C1_v2_nul_tokenizer (data : List Nat) (atEOF : Bool) (i : Nat)
    (hfirst : indexByte data 0 = some i) :
    (¬ [50, 32] <+: data →
      statusv2.porcelainv2ZSplitFunc data atEOF = .emit (i + 1) (data.take i) ∧
      (data.take i).count 0 = 0) ∧
    (∀ j, [50, 32] <+: data → indexByte (data.drop (i + 1)) 0 = some j →
      statusv2.porcelainv2ZSplitFunc data atEOF = .emit (i + 1 + j + 1) (data.take (i + 1 + j)) ∧
      (data.take (i + 1 + j)).count 0 = 1) := by
  obtain ⟨p, q, rfl, rfl, hp⟩ := (indexByte_eq_some_iff data 0 i).mp hfirst
  have hdrop : (p ++ 0 :: q).drop (p.length + 1) = q := by
    rw [← List.singleton_append, ← List.append_assoc]
    exact List.drop_left' (by simp)
  constructor
  · intro hnpre
    have htake : (p ++ 0 :: q).take p.length = p := List.take_left' rfl
    refine ⟨?_, ?_⟩
    · simp only [statusv2.porcelainv2ZSplitFunc, hfirst, if_neg hnpre, htake]
    · rw [htake]
      exact List.count_eq_zero.mpr hp
  · intro j hpre hsec
    rw [hdrop] at hsec
    obtain ⟨p2, q2, rfl, rfl, hp2⟩ := (indexByte_eq_some_iff q 0 j).mp hsec
    have hdata : p ++ 0 :: (p2 ++ 0 :: q2) = (p ++ 0 :: p2) ++ 0 :: q2 := by simp
    have htake : (p ++ 0 :: (p2 ++ 0 :: q2)).take (p.length + 1 + p2.length) = p ++ 0 :: p2 := by
      rw [hdata]
      exact List.take_left' (by simp; omega)
    have hsec2 : indexByte ((p ++ 0 :: (p2 ++ 0 :: q2)).drop (p.length + 1)) 0 = some p2.length := by
      rw [hdrop]
      exact indexByte_append p2 q2 0 hp2
    have hcount : (p ++ 0 :: p2).count 0 = 1 := by
      simp [List.count_append, List.count_cons_self,
        List.count_eq_zero.mpr hp, List.count_eq_zero.mpr hp2]
    refine ⟨?_, ?_⟩
    · simp only [statusv2.porcelainv2ZSplitFunc, hfirst, if_pos hpre, hsec2, htake]
      have hlen : (p ++ 0 :: p2).length = p.length + 1 + p2.length := by simp; omega
      rw [hlen]
    · rw [htake, hcount]

/-- C1 witness: the tokenizer on concrete simple and rename/copy buffers. -/
theorem C1_v2_nul_tokenizer_witness :
    (statusv2.porcelainv2ZSplitFunc [49, 32, 97, 0, 88] true = .emit 4 [49, 32, 97] ∧
      ([49, 32, 97] : List Nat).count 0 = 0) ∧
    (statusv2.porcelainv2ZSplitFunc [50, 32, 97, 0, 98, 0, 99] false = .emit 6 [50, 32, 97, 0, 98] ∧
      ([50, 32, 97, 0, 98] : List Nat).count 0 = 1) := by
  constructor
  · exact (C1_v2_nul_tokenizer [49, 32, 97, 0, 88] true 3 (by decide)).1 (by decide)
  · exact (C1_v2_nul_tokenizer [50, 32, 97, 0, 98, 0, 99] false 3 (by decide)).2 1 (by decide) (by decide)

/-- C2: in NUL mode of both format generations, a rename/copy record that
ends the input with its internal NUL separator and no second path makes the
tokenizer fail with the truncated rename/copy error, and the whole decode
call (`ParseZ`) returns that terminal error. -/
theorem C2_truncated_rename_terminal (p q : List Nat)
    (hp : [50, 32] <+: p) (hpn : p.count 0 = 0)
    (hq : 2 ≤ q.length)
    (hqrc : q.getD 0 0 = 82 ∨ q.getD 0 0 = 67 ∨ q.getD 1 0 = 82 ∨ q.getD 1 0 = 67)
    (hqn : q.count 0 = 0) :
    (statusv2.porcelainv2ZSplitFunc (p ++ [0]) true =
        .fail "malformed rename/copy entry: missing second path" ∧
      statusv2.ParseZ (p ++ [0]) = .error "malformed rename/copy entry: missing second path") ∧
    (statusv1.porcelainv1ZSplitFunc (q ++ [0]) true =
        .fail "malformed rename/copy entry: missing original path" ∧
      statusv1.ParseZ (q ++ [0]) =
        .error "scanner error: malformed rename/copy entry: missing original path") := by
  have hpmem : 0 ∉ p := List.count_eq_zero.mp hpn
  have hqmem : 0 ∉ q := List.count_eq_zero.mp hqn
  have hsplit2 : statusv2.porcelainv2ZSplitFunc (p ++ [0]) true =
      .fail "malformed rename/copy entry: missing second path" := by
    have h1 : indexByte (p ++ [0]) 0 = some p.length := indexByte_append p [] 0 hpmem
    have hdrop : (p ++ [0]).drop (p.length + 1) = [] := by
      apply List.drop_eq_nil_of_le
      simp
    have h2 : indexByte ((p ++ [0]).drop (p.length + 1)) 0 = none := by rw [hdrop]; rfl
    have hpre : [50, 32] <+: p ++ [0] := hp.trans (List.prefix_append _ _)
    have hlt : ¬ (p.length + 1 < (p ++ [0]).length) := by simp
    simp only [statusv2.porcelainv2ZSplitFunc, h1, if_pos hpre, h2, if_pos rfl, if_neg hlt,
      if_true]
  have hsplit1 : statusv1.porcelainv1ZSplitFunc (q ++ [0]) true =
      .fail "malformed rename/copy entry: missing original path" := by
    have h1 : indexByte (q ++ [0]) 0 = some q.length := indexByte_append q [] 0 hqmem
    have hdrop : (q ++ [0]).drop (q.length + 1) = [] := by
      apply List.drop_eq_nil_of_le
      simp
    have h2 : indexByte ((q ++ [0]).drop (q.length + 1)) 0 = none := by rw [hdrop]; rfl
    have hg0 : (q ++ [0]).getD 0 0 = q.getD 0 0 := by
      simp only [List.getD_eq_getElem?_getD]
      rw [List.getElem?_append, if_pos (by omega)]
    have hg1 : (q ++ [0]).getD 1 0 = q.getD 1 0 := by
      simp only [List.getD_eq_getElem?_getD]
      rw [List.getElem?_append, if_pos (by omega)]
    have hcond : 2 ≤ (q ++ [0]).length ∧
        ((q ++ [0]).getD 0 0 = 82 ∨ (q ++ [0]).getD 0 0 = 67 ∨
         (q ++ [0]).getD 1 0 = 82 ∨ (q ++ [0]).getD 1 0 = 67) := by
      refine ⟨by simp; omega, ?_⟩
      rw [hg0, hg1]
      exact hqrc
    have hlt : ¬ (q.length + 1 < (q ++ [0]).length) := by simp
    simp only [statusv1.porcelainv1ZSplitFunc, h1, if_pos hcond, h2, if_pos rfl, if_neg hlt,
      if_true]
  refine ⟨⟨hsplit2, ?_⟩, hsplit1, ?_⟩
  · have hne : p ++ [0] ≠ [] := by cases p <;> simp
    rw [statusv2.ParseZ, scanFold, scanFoldAux_cons_eq _ _ _ _ _ _ hne, hsplit2]
    rfl
  · have hne : q ++ [0] ≠ [] := by cases q <;> simp
    rw [statusv1.ParseZ, scanFold, scanFoldAux_cons_eq _ _ _ _ _ _ hne, hsplit1]
    rfl

/-- The entries contributed by one record: one for a successfully decoded
entry record, none for headers, skipped records, and empty records. -/
def recEntries (pathSep : Nat) (line : List Nat) : List statusv2.Entry :=
  match statusv2.lineEntry pathSep line with
  | some (.ok e) => [e]
  | _ => []

theorem parseHeaderEntry_entries (line : List Nat) (s : statusv2.Status) :
    (statusv2.parseHeaderEntry line s).entries = s.entries := by
  unfold statusv2.parseHeaderEntry
  repeat' first
    | rfl
    | split

theorem stepLine_of_lineEntry_ok (ps : Nat) (s : statusv2.Status) (r : List Nat)
    (e : statusv2.Entry) (h : statusv2.lineEntry ps r = some (.ok e)) :
    statusv2.stepLine ps s r = .ok { s with entries := s.entries ++ [e] } := by
  match r with
  | [] => simp [statusv2.lineEntry] at h
  | c :: t =>
    by_cases hc : c = 35
    · subst hc
      simp [statusv2.lineEntry] at h
    · simp only [statusv2.stepLine, if_neg hc, h]

theorem scanFold_entry_records (rs : List (List Nat)) (es : List statusv2.Entry)
    (h : List.Forall₂ (fun r e => statusv2.wfZRecord r ∧
      statusv2.lineEntry 0 r = some (.ok e)) rs es) :
    ∀ s : statusv2.Status,
      scanFold statusv2.porcelainv2ZSplitFunc (statusv2.stepLine 0) id
        (rs.flatMap (fun r => r ++ [0])) s = .ok { s with entries := s.entries ++ es } := by
  induction h with
  | nil =>
    intro s
    simp only [List.flatMap_nil, List.append_nil]
    rw [scanFold, scanFoldAux_nil]
  | @cons r e rs2 es2 hre _ ih =>
    intro s
    have hflat : (r :: rs2).flatMap (fun r => r ++ [0]) =
        r ++ 0 :: rs2.flatMap (fun r => r ++ [0]) := by simp
    rw [hflat, statusv2.scanFoldV2_record _ _ _ _ hre.1, stepLine_of_lineEntry_ok _ _ _ _ hre.2]
    simp only
    rw [ih { s with entries := s.entries ++ [e] }]
    simp

theorem stepLine_header_or_entry (r : List Nat) (s : statusv2.Status)
    (hr : (∃ t, r = 35 :: t) ∨ ∃ e, statusv2.lineEntry 0 r = some (.ok e)) :
    ∃ s2, statusv2.stepLine 0 s r = .ok s2 ∧ s2.entries = s.entries ++ recEntries 0 r := by
  rcases hr with ⟨t, rfl⟩ | ⟨e, he⟩
  · have hnone : statusv2.lineEntry 0 (35 :: t) = none := by
      simp [statusv2.lineEntry]
    refine ⟨statusv2.parseHeaderEntry (35 :: t) s, ?_, ?_⟩
    · simp [statusv2.stepLine]
    · rw [parseHeaderEntry_entries]
      simp [recEntries, hnone]
  · refine ⟨{ s with entries := s.entries ++ [e] },
      stepLine_of_lineEntry_ok 0 s r e he, ?_⟩
    simp [recEntries, he]

theorem scanFold_mixed_records (rs : List (List Nat))
    (h : ∀ r ∈ rs, statusv2.wfZRecord r ∧
      ((∃ t, r = 35 :: t) ∨ ∃ e, statusv2.lineEntry 0 r = some (.ok e))) :
    ∀ s : statusv2.Status,
      ∃ s2, scanFold statusv2.porcelainv2ZSplitFunc (statusv2.stepLine 0) id
        (rs.flatMap (fun r => r ++ [0])) s = .ok s2 ∧
        s2.entries = s.entries ++ rs.flatMap (recEntries 0) := by
  induction rs with
  | nil =>
    intro s
    refine ⟨s, ?_, by simp⟩
    simp only [List.flatMap_nil]
    rw [scanFold, scanFoldAux_nil]
  | cons r rs ih =>
    intro s
    have hr := h r (List.mem_cons_self r rs)
    obtain ⟨s1, hs1, hs1e⟩ := stepLine_header_or_entry r s hr.2
    obtain ⟨s2, hs2, hs2e⟩ := ih (fun g hg => h g (List.mem_cons_of_mem r hg)) s1
    refine ⟨s2, ?_, ?_⟩
    · have hflat : (r :: rs).flatMap (fun r => r ++ [0]) =
          r ++ 0 :: rs.flatMap (fun r => r ++ [0]) := by simp
      rw [hflat, statusv2.scanFoldV2_record _ _ _ _ hr.1, hs1]
      exact hs2
    · rw [hs2e, hs1e]
      simp [List.append_assoc]

/-- C3: a concatenation of N well-formed NUL-terminated v2 records, each a
header record or an entry record, decodes without error; the resulting
entries are exactly the per-record entries in input order, each equal to the
value obtained by decoding that record in isolation (stated first for lists
of entry records via `Forall₂`, then for mixed header/entry record lists via
the per-record entry contribution `recEntries`). -/
theorem C3_concat_decode (rs : List (List Nat)) (es : List statusv2.Entry)
    (h : List.Forall₂ (fun r e => statusv2.wfZRecord r ∧
      statusv2.lineEntry 0 r = some (.ok e)) rs es) :
    (statusv2.ParseZ (rs.flatMap (fun r => r ++ [0])) =
      .ok { branch := none, stash := none, entries := es } ∧
    List.Forall₂ (fun r e => statusv2.ParseZ (r ++ [0]) =
      .ok { branch := none, stash := none, entries := [e] }) rs es) ∧
    (∀ rs2 : List (List Nat),
      (∀ r ∈ rs2, statusv2.wfZRecord r ∧
        ((∃ t, r = 35 :: t) ∨ ∃ e, statusv2.lineEntry 0 r = some (.ok e))) →
      ∃ final, statusv2.ParseZ (rs2.flatMap (fun r => r ++ [0])) = .ok final ∧
        final.entries = rs2.flatMap (recEntries 0) ∧
        ∀ r ∈ rs2, ∃ s1, statusv2.ParseZ (r ++ [0]) = .ok s1 ∧
          s1.entries = recEntries 0 r) := by
  refine ⟨⟨?_, ?_⟩, ?_⟩
  · have := scanFold_entry_records rs es h {}
    simpa [statusv2.ParseZ] using this
  · refine h.imp (fun r e hre => ?_)
    have := scanFold_entry_records [r] [e] (List.forall₂_cons.mpr ⟨hre, List.Forall₂.nil⟩) {}
    simpa [statusv2.ParseZ] using this
  · intro rs2 h2
    obtain ⟨final, hfinal, hfe⟩ := scanFold_mixed_records rs2 h2 {}
    refine ⟨final, ?_, by simpa using hfe, ?_⟩
    · simpa [statusv2.ParseZ] using hfinal
    · intro r hr
      obtain ⟨s1, hs1, hs1e⟩ := scanFold_mixed_records [r]
        (fun g hg => by
          rw [List.mem_singleton] at hg
          exact hg ▸ h2 r hr) {}
      refine ⟨s1, ?_, by simpa using hs1e⟩
      simpa [statusv2.ParseZ] using hs1

/-- C3 witness: scenario A's two records, concatenated and in isolation, and
a mixed header-plus-entry record list. -/
theorem C3_concat_decode_witness :
    statusv2.ParseZ
      ([bs "1 M. N... 100644 100644 100644 h1 h2 file.txt",
        bs "? untracked.txt"].flatMap (fun r => r ++ [0])) =
      .ok { branch := none, stash := none, entries :=
        [.changed { xy := ⟨77, 46⟩,
                    sub := ⟨false, false, false, false⟩,
                    modeH := 33188, modeI := 33188, modeW := 33188,
                    hashH := bs "h1", hashI := bs "h2", path := bs "file.txt" },
         .untracked ⟨bs "untracked.txt"⟩] } ∧
    statusv2.ParseZ (bs "? untracked.txt" ++ [0]) =
      .ok { branch := none, stash := none, entries := [.untracked ⟨bs "untracked.txt"⟩] } ∧
    (∃ final, statusv2.ParseZ
        ([bs "# branch.oid abc", bs "? untracked.txt"].flatMap (fun r => r ++ [0])) =
        .ok final ∧
      final.entries = [bs "# branch.oid abc", bs "? untracked.txt"].flatMap (recEntries 0) ∧
      ∀ r ∈ [bs "# branch.oid abc", bs "? untracked.txt"],
        ∃ s1, statusv2.ParseZ (r ++ [0]) = .ok s1 ∧ s1.entries = recEntries 0 r) := by
  have h := C3_concat_decode
    [bs "1 M. N... 100644 100644 100644 h1 h2 file.txt", bs "? untracked.txt"]
    [.changed { xy := ⟨77, 46⟩,
                sub := ⟨false, false, false, false⟩,
                modeH := 33188, modeI := 33188, modeW := 33188,
                hashH := bs "h1", hashI := bs "h2", path := bs "file.txt" },
     .untracked ⟨bs "untracked.txt"⟩]
    (List.forall₂_cons.mpr ⟨⟨by decide, by decide⟩,
      List.forall₂_cons.mpr ⟨⟨by decide, by decide⟩, List.Forall₂.nil⟩⟩)
  refine ⟨h.1.1, (List.forall₂_cons.mp (List.forall₂_cons.mp h.1.2).2).1, ?_⟩
  refine h.2 [bs "# branch.oid abc", bs "? untracked.txt"] ?_
  intro r hr
  rw [List.mem_cons, List.mem_singleton] at hr
  rcases hr with rfl | rfl
  · exact ⟨by decide, Or.inl ⟨bs " branch.oid abc", by decide⟩⟩
  · exact ⟨by decide, Or.inr ⟨.untracked ⟨bs "untracked.txt"⟩, by decide⟩⟩

/-- C4 counterexample: the header record `# branch.ab xyz` has a recognized
key and a value that fails to scan as `+<ahead> -<behind>`, yet the decoder
allocates a (zero-valued) BranchInfo: the decode does not leave the
BranchInfo state unaffected, contrary to the claim. -/
theorem C4_counterexample_branch_ab :
    (statusv2.parseHeaderEntry (bs "# branch.ab xyz") {}).branch.isSome = true ∧
    statusv2.ParseZ (bs "# branch.ab xyz" ++ [0]) =
      .ok { branch := some { oid := [], head := [], upstream := [], ahead := 0, behind := 0 },
            stash := none, entries := [] } := by
  constructor
  · decide
  · decide

/-- C4 (amended): a recognized header whose value fails to parse never aborts
the decode, and for `stash` the state is left completely unchanged; but a
`branch.ab` header always allocates BranchInfo (Go evaluates
`ensureBranch(s)` as an `fmt.Sscanf` argument before scanning), so a
malformed `branch.ab` value does mutate the BranchInfo state. -/
theorem C4_amended_header_recovery :
    (∀ (s : statusv2.Status) (v : List Nat), parseInt10 v = none →
      statusv2.parseHeaderEntry (bs "# stash " ++ v) s = s) ∧
    (∀ (s : statusv2.Status) (v : List Nat),
      (statusv2.parseHeaderEntry (bs "# branch.ab " ++ v) s).branch.isSome = true) ∧
    (∀ (ps : Nat) (s : statusv2.Status) (line : List Nat),
      ∃ s2, statusv2.stepLine ps s (35 :: line) = .ok s2) := by
  refine ⟨?_, ?_, ?_⟩
  · intro s v hv
    have h0 : bs "# stash " = bs "# " ++ (bs "stash" ++ [32]) := by decide
    have hform : bs "# stash " ++ v = bs "# " ++ (bs "stash" ++ 32 :: v) := by
      rw [h0, List.append_assoc, List.append_assoc, List.singleton_append]
    rw [hform]
    simp only [statusv2.parseHeaderEntry, cutPrefix_append,
      cut_append (bs "stash") v 32 (by decide), hv]
    rw [if_neg (show ¬(bs "stash" = bs "branch.oid") by decide),
      if_neg (show ¬(bs "stash" = bs "branch.head") by decide),
      if_neg (show ¬(bs "stash" = bs "branch.upstream") by decide),
      if_neg (show ¬(bs "stash" = bs "branch.ab") by decide)]
    simp
  · intro s v
    have h0 : bs "# branch.ab " = bs "# " ++ (bs "branch.ab" ++ [32]) := by decide
    have hform : bs "# branch.ab " ++ v = bs "# " ++ (bs "branch.ab" ++ 32 :: v) := by
      rw [h0, List.append_assoc, List.append_assoc, List.singleton_append]
    rw [hform]
    simp only [statusv2.parseHeaderEntry, cutPrefix_append,
      cut_append (bs "branch.ab") v 32 (by decide)]
    split_ifs <;> rfl
  · intro ps s line
    exact ⟨_, rfl⟩

/-- C4 witness: the amended theorem at concrete malformed header values. -/
theorem C4_amended_header_recovery_witness :
    statusv2.parseHeaderEntry (bs "# stash " ++ bs "notanumber")
      { branch := none, stash := none, entries := [] } =
      { branch := none, stash := none, entries := [] } ∧
    (statusv2.parseHeaderEntry (bs "# branch.ab " ++ bs "xyz")
      { branch := none, stash := none, entries := [] }).branch.isSome = true ∧
    ∃ s2, statusv2.stepLine 0 { branch := none, stash := none, entries := [] }
      (35 :: bs " oops") = .ok s2 :=
  ⟨C4_amended_header_recovery.1 _ (bs "notanumber") (by decide),
   C4_amended_header_recovery.2.1 _ (bs "xyz"),
   C4_amended_header_recovery.2.2 0 _ (bs " oops")⟩

theorem octFold_le (f : List Nat) : ∀ acc : Nat,
    acc ≤ f.foldl (fun n c => n * 8 + (c - 48)) acc := by
  induction f with
  | nil => intro acc; simp
  | cons c f ih =>
    intro acc
    calc acc ≤ acc * 8 + (c - 48) := by omega
    _ ≤ f.foldl (fun n c => n * 8 + (c - 48)) (acc * 8 + (c - 48)) := ih _
    _ = (c :: f).foldl (fun n c => n * 8 + (c - 48)) acc := by simp

theorem parseUintOct32_isSome_iff (f : List Nat) : ∀ acc : Nat, acc < 4294967296 →
    ((parseUintOct32 f acc).isSome = true ↔
      (∀ c ∈ f, 48 ≤ c ∧ c ≤ 55) ∧
        f.foldl (fun n c => n * 8 + (c - 48)) acc < 4294967296) := by
  induction f with
  | nil =>
    intro acc hacc
    simp [parseUintOct32, hacc]
  | cons c f ih =>
    intro acc _
    by_cases hc : 48 ≤ c ∧ c ≤ 55
    · by_cases hov : acc * 8 + (c - 48) < 4294967296
      · rw [show parseUintOct32 (c :: f) acc = parseUintOct32 f (acc * 8 + (c - 48)) by
          simp [parseUintOct32, hc, hov]]
        rw [ih _ hov]
        simp only [List.mem_cons, List.foldl_cons]
        constructor
        · rintro ⟨h1, h2⟩
          exact ⟨fun x hx => hx.elim (fun he => he ▸ hc) (h1 x), h2⟩
        · rintro ⟨h1, h2⟩
          exact ⟨fun x hx => h1 x (Or.inr hx), h2⟩
      · rw [show parseUintOct32 (c :: f) acc = none by simp [parseUintOct32, hc, hov]]
        simp only [Option.isSome_none, Bool.false_eq_true, false_iff, List.foldl_cons, not_and]
        intro _ h2
        exact absurd (lt_of_le_of_lt (octFold_le f _) h2) hov
    · rw [show parseUintOct32 (c :: f) acc = none by simp [parseUintOct32, hc]]
      simp only [Option.isSome_none, Bool.false_eq_true, false_iff, List.foldl_cons, not_and]
      intro h1 _
      exact hc (h1 c (List.mem_cons_self c f))

/-- C5 counterexample: the seven-octal-digit mode text "1111111" is accepted
by the file-mode decoder (ParseUint with base 8 and bitSize 32 accepts any
digit count whose value fits 32 bits), refuting the claimed 1-6 digit bound. -/
theorem C5_counterexample_filemode :
    (bs "1111111").length = 7 ∧ statusv2.parseFileMode (bs "1111111") = .ok 299593 := by
  constructor
  · decide
  · decide

/-- C5 (amended): the file-mode decoder accepts a field iff its text is a
nonempty run of base-8 digits whose value fits in 32 bits; any non-octal
character (or empty text, or a 32-bit overflow) is a hard error for the
owning record, but digit counts above 6 are accepted when the value fits. -/
theorem C5_amended_filemode (f : List Nat) :
    (statusv2.parseFileMode f).isOk = true ↔
      f ≠ [] ∧ (∀ c ∈ f, 48 ≤ c ∧ c ≤ 55) ∧
        f.foldl (fun n c => n * 8 + (c - 48)) 0 < 4294967296 := by
  match f with
  | [] => simp [statusv2.parseFileMode, Except.isOk, Except.toBool]
  | c :: t =>
    have h := parseUintOct32_isSome_iff (c :: t) 0 (by omega)
    have hok : (statusv2.parseFileMode (c :: t)).isOk = (parseUintOct32 (c :: t) 0).isSome := by
      cases hp : parseUintOct32 (c :: t) 0 <;>
        simp [statusv2.parseFileMode, hp, Except.isOk, Except.toBool]
    rw [hok, h]
    simp

/-- C5 witness: the amended acceptance condition applied at "100644". -/
theorem C5_amended_filemode_witness :
    (statusv2.parseFileMode (bs "100644")).isOk = true :=
  (C5_amended_filemode (bs "100644")).mpr ⟨by decide, by decide, by decide⟩

/-- C6: a record whose first byte is none of '#', '1', '2', 'u', '?', '!' is
silently skipped by the successor-format decoder: no error, no appended
entry, and the rest of the stream decodes exactly as if the record were
absent. -/
theorem C6_unknown_discriminant_skipped (c : Nat) (body rest : List Nat) (s : statusv2.Status)
    (hc : c ∉ ([35, 49, 50, 117, 63, 33] : List Nat))
    (hnonul : (c :: body).count 0 = 0) :
    statusv2.stepLine 0 s (c :: body) = .ok s ∧
    scanFold statusv2.porcelainv2ZSplitFunc (statusv2.stepLine 0) id
      ((c :: body) ++ 0 :: rest) s =
      scanFold statusv2.porcelainv2ZSplitFunc (statusv2.stepLine 0) id rest s ∧
    statusv2.ParseZ ((c :: body) ++ 0 :: rest) = statusv2.ParseZ rest := by
  simp only [List.mem_cons, List.not_mem_nil, or_false, not_or] at hc
  obtain ⟨h35, h49, h50, h117, h63, h33⟩ := hc
  have hstep : ∀ s0 : statusv2.Status, statusv2.stepLine 0 s0 (c :: body) = .ok s0 := by
    intro s0
    simp only [statusv2.stepLine, statusv2.lineEntry, if_neg h35, if_neg h49, if_neg h50,
      if_neg h117, if_neg h63, if_neg h33]
  have hwf : statusv2.wfZRecord (c :: body) := by
    unfold statusv2.wfZRecord
    rw [if_neg (by
      intro hpre
      rw [List.cons_prefix_cons] at hpre
      exact h50 hpre.1.symm)]
    exact hnonul
  have hfold : ∀ s0 : statusv2.Status,
      scanFold statusv2.porcelainv2ZSplitFunc (statusv2.stepLine 0) id
        ((c :: body) ++ 0 :: rest) s0 =
        scanFold statusv2.porcelainv2ZSplitFunc (statusv2.stepLine 0) id rest s0 := by
    intro s0
    rw [statusv2.scanFoldV2_record _ _ _ _ hwf, hstep s0]
  exact ⟨hstep s, hfold s, hfold {}⟩

/-- C6 witness: a concrete unknown record ("z unknown") before an untracked
record. -/
theorem C6_unknown_discriminant_skipped_witness :
    statusv2.stepLine 0 { branch := none, stash := none, entries := [] } (122 :: bs " unknown") =
      .ok { branch := none, stash := none, entries := [] } ∧
    statusv2.ParseZ ((122 :: bs " unknown") ++ 0 :: (bs "? x" ++ [0])) =
      statusv2.ParseZ (bs "? x" ++ [0]) := by
  have h := C6_unknown_discriminant_skipped 122 (bs " unknown") (bs "? x" ++ [0])
    { branch := none, stash := none, entries := [] } (by decide) (by decide)
  exact ⟨h.1, h.2.2⟩

theorem splitN_fields (fs : List (List Nat)) (last : List Nat) (sep : Nat)
    (h : ∀ f ∈ fs, sep ∉ f) :
    splitN (fs.foldr (fun f acc => f ++ sep :: acc) last) sep (fs.length + 1) = fs ++ [last] := by
  induction fs with
  | nil => rfl
  | cons f fs ih =>
    simp only [List.foldr_cons, List.length_cons]
    rw [show fs.length + 1 + 1 = fs.length + 2 from rfl,
      splitN_append _ _ _ _ (h f (List.mem_cons_self f fs)),
      ih (fun g hg => h g (List.mem_cons_of_mem f hg))]
    rfl

/-- C7: a successor-format rename/copy record whose path separator is
immediately followed by the record terminator (so, after tokenization, the
record ends with the separator) decodes successfully to an entry whose
original path is the empty string — present but empty — and whose path is the
text preceding the separator; by contrast, a final field with no separator at
all is a decode error. -/
theorem C7_empty_origpath (f0 f1 f2 f3 f4 f5 f6 f7 f8 p p2 : List Nat)
    (xy : statusv2.XYFlag) (sub : statusv2.SubmoduleStatus) (mH mI mW : Nat)
    (hsp : ∀ f ∈ [f0, f1, f2, f3, f4, f5, f6, f7, f8], 32 ∉ f)
    (hf0 : [50] <+: f0)
    (hxy : statusv2.parseXYFlag f1 = .ok xy)
    (hsub : statusv2.parseSubmoduleStatus f2 = .ok sub)
    (hmH : statusv2.parseFileMode f3 = .ok mH)
    (hmI : statusv2.parseFileMode f4 = .ok mI)
    (hmW : statusv2.parseFileMode f5 = .ok mW)
    (hp : 0 ∉ p) (hp2 : 0 ∉ p2) :
    statusv2.parseRenameOrCopyEntry
      (f0 ++ 32 :: (f1 ++ 32 :: (f2 ++ 32 :: (f3 ++ 32 :: (f4 ++ 32 :: (f5 ++ 32 ::
        (f6 ++ 32 :: (f7 ++ 32 :: (f8 ++ 32 :: (p ++ [0])))))))))) 0 =
      .ok { xy := xy, sub := sub, modeH := mH, modeI := mI, modeW := mW,
            hashH := f6, hashI := f7, score := f8, path := p, orig := [] } ∧
    statusv2.parseRenameOrCopyEntry
      (f0 ++ 32 :: (f1 ++ 32 :: (f2 ++ 32 :: (f3 ++ 32 :: (f4 ++ 32 :: (f5 ++ 32 ::
        (f6 ++ 32 :: (f7 ++ 32 :: (f8 ++ 32 :: p2))))))))) 0 =
      .error "invalid rename/copy path entry format" := by
  have hsplit := fun (last : List Nat) =>
    splitN_fields [f0, f1, f2, f3, f4, f5, f6, f7, f8] last 32 hsp
  simp only [List.foldr_cons, List.foldr_nil, List.length_cons, List.length_nil,
    List.cons_append, List.nil_append] at hsplit
  constructor
  · rw [show statusv2.parseRenameOrCopyEntry
        (f0 ++ 32 :: (f1 ++ 32 :: (f2 ++ 32 :: (f3 ++ 32 :: (f4 ++ 32 :: (f5 ++ 32 ::
          (f6 ++ 32 :: (f7 ++ 32 :: (f8 ++ 32 :: (p ++ [0])))))))))) 0 =
        (match splitN (f0 ++ 32 :: (f1 ++ 32 :: (f2 ++ 32 :: (f3 ++ 32 :: (f4 ++ 32 ::
          (f5 ++ 32 :: (f6 ++ 32 :: (f7 ++ 32 :: (f8 ++ 32 :: (p ++ [0])))))))))) 32 10 with
          | [g0, g1, g2, g3, g4, g5, g6, g7, g8, g9] =>
            if [50] <+: g0 then
              match statusv2.parseXYFlag g1 with
              | .error e => .error e
              | .ok xy2 =>
                match statusv2.parseSubmoduleStatus g2 with
                | .error e => .error e
                | .ok sub2 =>
                  match statusv2.parseFileMode g3, statusv2.parseFileMode g4,
                      statusv2.parseFileMode g5 with
                  | .ok modeH, .ok modeI, .ok modeW =>
                    match cut g9 0 with
                    | none => .error "invalid rename/copy path entry format"
                    | some (path, orig) =>
                      .ok { xy := xy2, sub := sub2, modeH := modeH, modeI := modeI,
                            modeW := modeW, hashH := g6, hashI := g7, score := g8,
                            path := path, orig := orig }
                  | _, _, _ => .error "invalid file mode fields"
            else .error "invalid rename or copy entry line"
          | _ => .error "invalid rename or copy entry line" : Except String statusv2.RenameOrCopyEntry)
        from rfl]
    rw [hsplit (p ++ [0])]
    simp only [if_pos hf0, hxy, hsub, hmH, hmI, hmW,
      cut_append p [] 0 hp]
  · rw [show statusv2.parseRenameOrCopyEntry
        (f0 ++ 32 :: (f1 ++ 32 :: (f2 ++ 32 :: (f3 ++ 32 :: (f4 ++ 32 :: (f5 ++ 32 ::
          (f6 ++ 32 :: (f7 ++ 32 :: (f8 ++ 32 :: p2))))))))) 0 =
        (match splitN (f0 ++ 32 :: (f1 ++ 32 :: (f2 ++ 32 :: (f3 ++ 32 :: (f4 ++ 32 ::
          (f5 ++ 32 :: (f6 ++ 32 :: (f7 ++ 32 :: (f8 ++ 32 :: p2))))))))) 32 10 with
          | [g0, g1, g2, g3, g4, g5, g6, g7, g8, g9] =>
            if [50] <+: g0 then
              match statusv2.parseXYFlag g1 with
              | .error e => .error e
              | .ok xy2 =>
                match statusv2.parseSubmoduleStatus g2 with
                | .error e => .error e
                | .ok sub2 =>
                  match statusv2.parseFileMode g3, statusv2.parseFileMode g4,
                      statusv2.parseFileMode g5 with
                  | .ok modeH, .ok modeI, .ok modeW =>
                    match cut g9 0 with
                    | none => .error "invalid rename/copy path entry format"
                    | some (path, orig) =>
                      .ok { xy := xy2, sub := sub2, modeH := modeH, modeI := modeI,
                            modeW := modeW, hashH := g6, hashI := g7, score := g8,
                            path := path, orig := orig }
                  | _, _, _ => .error "invalid file mode fields"
            else .error "invalid rename or copy entry line"
          | _ => .error "invalid rename or copy entry line" : Except String statusv2.RenameOrCopyEntry)
        from rfl]
    rw [hsplit p2]
    simp only [if_pos hf0, hxy, hsub, hmH, hmI, hmW, cut_eq_none p2 0 hp2]

/-- C7 witness: scenario B's record stem with an empty original path, and the
same stem with no separator at all. -/
theorem C7_empty_origpath_witness :
    statusv2.parseRenameOrCopyEntry
      (bs "2 R. N... 100644 100644 100644 h1 h2 R100 new.txt" ++ [0]) 0 =
      .ok { xy := ⟨82, 46⟩, sub := ⟨false, false, false, false⟩,
            modeH := 33188, modeI := 33188, modeW := 33188,
            hashH := bs "h1", hashI := bs "h2", score := bs "R100",
            path := bs "new.txt", orig := [] } ∧
    statusv2.parseRenameOrCopyEntry
      (bs "2 R. N... 100644 100644 100644 h1 h2 R100 new.txt") 0 =
      .error "invalid rename/copy path entry format" := by
  have h := C7_empty_origpath (bs "2") (bs "R.") (bs "N...") (bs "100644") (bs "100644")
    (bs "100644") (bs "h1") (bs "h2") (bs "R100") (bs "new.txt") (bs "new.txt")
    ⟨82, 46⟩ ⟨false, false, false, false⟩ 33188 33188 33188
    (by decide) (by decide) (by decide) (by decide) (by decide) (by decide) (by decide)
    (by decide) (by decide)
  exact ⟨h.1, h.2⟩

theorem cutSeq_first_occurrence (sep orig path : List Nat) (hsep : sep ≠ [])
    (h : ∀ i, i < orig.length → ¬ sep <+: ((orig ++ sep ++ path).drop i)) :
    cutSeq sep (orig ++ sep ++ path) = some (orig, path) := by
  induction orig with
  | nil =>
    match sep, hsep with
    | a :: sp, _ =>
      have hpre : (a :: sp) <+: ((a :: sp) ++ path) := List.prefix_append _ _
      simp only [List.nil_append]
      rw [show cutSeq (a :: sp) ((a :: sp) ++ path) =
          (if (a :: sp) <+: (a :: sp) ++ path then
            some (([] : List Nat), ((a :: sp) ++ path).drop (a :: sp).length)
          else (cutSeq (a :: sp) (sp ++ path)).map (fun p => (a :: p.1, p.2))) from rfl]
      rw [if_pos hpre, List.drop_left]
  | cons o os ih =>
    have h0 : ¬ sep <+: ((o :: os) ++ sep ++ path) := by
      have := h 0 (by simp)
      simpa using this
    match sep, hsep with
    | a :: sp, _ =>
      rw [show (o :: os) ++ (a :: sp) ++ path = o :: (os ++ (a :: sp) ++ path) by simp]
      rw [show cutSeq (a :: sp) (o :: (os ++ (a :: sp) ++ path)) =
          (if (a :: sp) <+: o :: (os ++ (a :: sp) ++ path) then
            some (([] : List Nat), (o :: (os ++ (a :: sp) ++ path)).drop (a :: sp).length)
          else (cutSeq (a :: sp) (os ++ (a :: sp) ++ path)).map (fun p => (o :: p.1, p.2)))
          from rfl]
      rw [if_neg (by
        intro hc
        exact h0 (by simpa using hc))]
      rw [ih (fun i hi => by
        have := h (i + 1) (by simp; omega)
        simpa [List.append_assoc] using this)]
      rfl

/-- C8: the legacy textual parser decodes `XY ORIGPATH -> PATH` to an Entry
with Path = PATH, OrigPath = ORIGPATH, while the legacy NUL parser decodes
`XY PATH\x00ORIGPATH` to the same Entry: the two path names appear in
reversed field order in NUL mode relative to textual mode. -/
theorem C8_rename_field_order :
    (∀ (x y : Nat) (orig path : List Nat),
      orig ≠ [] → path ≠ [] →
      (∀ i, i < orig.length →
        ¬ [32, 45, 62, 32] <+: ((orig ++ [32, 45, 62, 32] ++ path).drop i)) →
      statusv1.parseEntry (x :: y :: 32 :: (orig ++ [32, 45, 62, 32] ++ path)) =
        .ok ⟨⟨x, y⟩, path, orig⟩) ∧
    (∀ (x y : Nat) (orig path : List Nat),
      (x = 82 ∨ x = 67 ∨ y = 82 ∨ y = 67) → 0 ∉ path →
      statusv1.parseEntryZ (x :: y :: 32 :: (path ++ 0 :: orig)) =
        .ok ⟨⟨x, y⟩, path, orig⟩) := by
  constructor
  · intro x y orig path horig hpath hocc
    have hcut := cutSeq_first_occurrence [32, 45, 62, 32] orig path (by simp) hocc
    have hlen : ¬ (x :: y :: 32 :: (orig ++ [32, 45, 62, 32] ++ path)).length < 3 := by
      simp
    rw [statusv1.parseEntry, if_neg hlen]
    show (match cutSeq [32, 45, 62, 32] (orig ++ [32, 45, 62, 32] ++ path) with
      | some (origPath, newPath) =>
        if origPath = [] ∨ newPath = [] then
          (.error "invalid rename format" : Except String statusv1.Entry)
        else .ok ⟨⟨x, y⟩, newPath, origPath⟩
      | none => .ok ⟨⟨x, y⟩, orig ++ [32, 45, 62, 32] ++ path, []⟩) =
      .ok ⟨⟨x, y⟩, path, orig⟩
    rw [hcut]
    exact if_neg (by simp [horig, hpath])
  · intro x y orig path hrc hpath
    have hlen : ¬ (x :: y :: 32 :: (path ++ 0 :: orig)).length < 3 := by simp
    rw [statusv1.parseEntryZ, if_neg hlen]
    simp only [List.take_succ_cons, List.take_zero, List.drop_succ_cons, List.drop_zero,
      List.getD_cons_succ, List.getD_cons_zero, statusv1.parseXYFlag, ne_eq]
    rw [if_neg (by simp)]
    rw [if_pos hrc, cut_append path orig 0 hpath]

/-- C8 witness: `R  old.txt -> new.txt` (textual) and `R  new.txt\x00old.txt`
(NUL) decode to the same Entry. -/
theorem C8_rename_field_order_witness :
    statusv1.parseEntry (82 :: 32 :: 32 :: (bs "old.txt" ++ [32, 45, 62, 32] ++ bs "new.txt")) =
      .ok ⟨⟨82, 32⟩, bs "new.txt", bs "old.txt"⟩ ∧
    statusv1.parseEntryZ (82 :: 32 :: 32 :: (bs "new.txt" ++ 0 :: bs "old.txt")) =
      .ok ⟨⟨82, 32⟩, bs "new.txt", bs "old.txt"⟩ :=
  ⟨C8_rename_field_order.1 82 32 (bs "old.txt") (bs "new.txt")
      (by decide) (by decide) (by decide),
   C8_rename_field_order.2 82 32 (bs "old.txt") (bs "new.txt")
      (by decide) (by decide)⟩

/-- C9: in both format generations the XY field decoder fails exactly when
the field is not two bytes long, and any two byte values — NUL included —
decode successfully into an XYFlag without validation. -/
theorem C9_xyflag_unvalidated :
    (∀ f : List Nat, f.length ≠ 2 → ∃ e, statusv1.parseXYFlag f = .error e) ∧
    (∀ a b : Nat, statusv1.parseXYFlag [a, b] = .ok ⟨a, b⟩) ∧
    (∀ f : List Nat, f.length ≠ 2 → ∃ e, statusv2.parseXYFlag f = .error e) ∧
    (∀ a b : Nat, statusv2.parseXYFlag [a, b] = .ok ⟨a, b⟩) := by
  refine ⟨?_, fun a b => rfl, ?_, fun a b => rfl⟩
  · intro f h
    match f with
    | [] => exact ⟨_, rfl⟩
    | [a] => exact ⟨_, rfl⟩
    | [a, b] => simp at h
    | a :: b :: c :: t => exact ⟨_, rfl⟩
  · intro f h
    match f with
    | [] => exact ⟨_, rfl⟩
    | [a] => exact ⟨_, rfl⟩
    | [a, b] => simp at h
    | a :: b :: c :: t => exact ⟨_, rfl⟩

/-- C9 witness: a NUL/255 pair decodes; a 1-byte and a 3-byte field fail. -/
theorem C9_xyflag_unvalidated_witness :
    statusv1.parseXYFlag [0, 255] = .ok ⟨0, 255⟩ ∧
    statusv2.parseXYFlag [0, 255] = .ok ⟨0, 255⟩ ∧
    (∃ e, statusv1.parseXYFlag [82] = .error e) ∧
    (∃ e, statusv2.parseXYFlag [82, 82, 82] = .error e) :=
  ⟨C9_xyflag_unvalidated.2.1 0 255,
   C9_xyflag_unvalidated.2.2.2 0 255,
   C9_xyflag_unvalidated.1 [82] (by decide),
   C9_xyflag_unvalidated.2.2.1 [82, 82, 82] (by decide)⟩

/-- C10: in legacy NUL mode, a record whose XY code contains 'R' or 'C' but
whose path field has no embedded NUL separator is not rejected: it decodes to
an Entry with Path the whole field and OrigPath empty. -/
theorem C10_rename_without_separator (x y : Nat) (p : List Nat)
    (hrc : x = 82 ∨ x = 67 ∨ y = 82 ∨ y = 67) (hp : 0 ∉ p) :
    statusv1.parseEntryZ (x :: y :: 32 :: p) = .ok ⟨⟨x, y⟩, p, []⟩ := by
  have hlen : ¬ (x :: y :: 32 :: p).length < 3 := by simp
  rw [statusv1.parseEntryZ, if_neg hlen]
  simp only [List.take_succ_cons, List.take_zero, List.drop_succ_cons, List.drop_zero,
    List.getD_cons_succ, List.getD_cons_zero, statusv1.parseXYFlag, ne_eq]
  rw [if_neg (by simp)]
  rw [if_pos hrc, cut_eq_none p 0 hp]

/-- C10 witness: `R  justpath.txt` decodes with an empty OrigPath. -/
theorem C10_rename_without_separator_witness :
    statusv1.parseEntryZ (82 :: 32 :: 32 :: bs "justpath.txt") =
      .ok ⟨⟨82, 32⟩, bs "justpath.txt", []⟩ :=
  C10_rename_without_separator 82 32 (bs "justpath.txt") (by decide) (by decide)

/-- C2 witness: the spec's concrete scenario C record for v2 and an analogous
truncated v1 rename record. -/
theorem C2_truncated_rename_terminal_witness :
    statusv2.ParseZ (bs "2 R. N... 100644 100644 100644 h1 h2 R100 new.txt" ++ [0]) =
      .error "malformed rename/copy entry: missing second path" ∧
    statusv1.ParseZ (bs "R  new.txt" ++ [0]) =
      .error "scanner error: malformed rename/copy entry: missing original path" := by
  have h := C2_truncated_rename_terminal
    (bs "2 R. N... 100644 100644 100644 h1 h2 R100 new.txt") (bs "R  new.txt")
    (by decide) (by decide) (by decide) (by decide) (by decide)
  exact ⟨h.1.2, h.2.2⟩

end Porcelain
